import Mathlib

/-!
Shallow embedding of the heading-outline extractor
(src/Challenge_1a/process_pdfs_improved.py) and proofs of the spec claims.

Modelling conventions:
* Python floats (font sizes, vertical positions) are modelled as rationals;
  all comparisons in the source are order/equality comparisons, which the
  rationals reproduce exactly.
* Python str.strip is modelled by String.trim, str.lower by String.toLower
  (the source only exercises these on ordinary ASCII-spaced text).
* The regular expressions of is_likely_heading are modelled as executable
  character-list matchers, one per pattern, faithful to the anchored
  patterns of the source.
* Exceptions raised by the PDF parser are modelled with Except; a parsed
  document is a pure value of type Doc.
-/

namespace PdfExtract

/-- One span of the dict produced by page.get_text, source lines 37-41 and 174-186:
a text fragment with font size, font name and bounding-box top coordinate. -/
structure Span where
  text : String
  size : ℚ
  font : String
  bbox1 : ℚ
deriving DecidableEq, Repr

/-- One line of a text block: its spans and the top coordinate of its bbox. -/
structure Line where
  spans : List Span
  bbox1 : ℚ
deriving DecidableEq, Repr

/-- One block of a page dict; type 0 is a text block, other values are images. -/
structure Block where
  type : Int
  lines : List Line
deriving DecidableEq, Repr

/-- A page: the blocks of its text dict. -/
structure Page where
  blocks : List Block
deriving DecidableEq, Repr

/-- One entry of doc.get_toc(): outline level, title text, page number. -/
structure TocItem where
  level : Int
  title : String
  page : Int
deriving DecidableEq, Repr

/-- A parsed document: metadata title (none when the metadata field is absent),
the explicit TOC, and the pages. -/
structure Doc where
  metadata_title : Option String
  toc : List TocItem
  pages : List Page
deriving DecidableEq, Repr

/-- An element of spans_data, source lines 179-186. -/
structure SpanInfo where
  text : String
  font_size : ℚ
  font_name : String
  bold : Bool
  page : Int
  y_pos : ℚ
deriving DecidableEq, Repr

/-- One outline entry of the produced JSON. -/
structure OutlineEntry where
  level : String
  text : String
  page : Int
deriving DecidableEq, Repr

/-- A title candidate of extract_title_from_pdf, source lines 45-49. -/
structure Candidate where
  text : String
  font_size : ℚ
  y_pos : ℚ
deriving DecidableEq, Repr

/-- The result pair written for one document. -/
structure DocResult where
  title : String
  outline : List OutlineEntry
deriving DecidableEq, Repr

/-! ## Generic list machinery: stable insertion sort and first-occurrence dedup -/

/-- Insert x into l, before the first element y with le x y; with a total
preorder le this realises a stable sort step (Python list.sort is stable). -/
def insertLE (le : α → α → Bool) (x : α) : List α → List α
  | [] => [x]
  | y :: ys => if le x y then x :: y :: ys else y :: insertLE le x ys

/-- Stable insertion sort with respect to le; models Python list.sort with a
key function, whose output is uniquely determined by sortedness, stability
and being a permutation. -/
def sortLE (le : α → α → Bool) (l : List α) : List α := l.foldr (insertLE le) []

/-- Keep from each key-class the first occurrence only: the declarative
description of dedup by a seen-set. -/
def dedupFirst {α κ : Type} [DecidableEq κ] (key : α → κ) : List α → List α
  | [] => []
  | x :: rest => x :: dedupFirst key (rest.filter (fun y => decide (key y ≠ key x)))
termination_by l => l.length
decreasing_by
  simp only [List.length_cons]
  exact Nat.lt_succ_of_le (List.length_filter_le _ _)

/-! ## String helpers modelling Python primitives -/

/-- Characters matched by the regex class backslash-s on ASCII text; also
the whitespace stripped by the Python strip method. -/
def pythonIsSpace (c : Char) : Bool :=
  c = ' ' || c = '\t' || c = '\n' || c = '\r' || c = '\x0b' || c = '\x0c'

/-- Model of the Python strip method: drop whitespace from both ends. -/
def pyStrip (s : String) : String :=
  String.mk (((s.toList.dropWhile pythonIsSpace).reverse.dropWhile pythonIsSpace).reverse)

/-- ASCII lowercasing of one character. -/
def charLower (c : Char) : Char :=
  if 'A' ≤ c && c ≤ 'Z' then Char.ofNat (c.toNat + 32) else c

/-- Model of the Python lower method on the ASCII range. -/
def pyLower (s : String) : String := String.mk (s.toList.map charLower)

/-- ASCII uppercase letter, the regex class A-Z. -/
def isUpperAZ (c : Char) : Bool := 'A' ≤ c && c ≤ 'Z'

/-- ASCII lowercase letter, the regex class a-z. -/
def isLowerAZ (c : Char) : Bool := 'a' ≤ c && c ≤ 'z'

/-- Worker for whitespace collapsing: the flag records whether the previous
emitted character came from a whitespace run. -/
def collapseWSAux : Bool → List Char → List Char
  | _, [] => []
  | prevSpace, c :: rest =>
    if pythonIsSpace c then
      if prevSpace then collapseWSAux true rest
      else ' ' :: collapseWSAux true rest
    else c :: collapseWSAux false rest

/-- Model of re.sub collapsing every whitespace run to a single space,
source line 213. -/
def normalizeWS (s : String) : String := String.mk (collapseWSAux false s.toList)

/-- Does the list start with a regex-whitespace character? -/
def startsWithSpace : List Char → Bool
  | [] => false
  | c :: _ => pythonIsSpace c

/-- Model of the anchored regex: digits, an optional dot, then at least one
whitespace character (numbered headings), source line 115. -/
def matchNumbered (cs : List Char) : Bool :=
  let ds := cs.takeWhile Char.isDigit
  !ds.isEmpty &&
    (match cs.drop ds.length with
     | '.' :: rest => startsWithSpace rest
     | rest => startsWithSpace rest)

/-- Model of the anchored regex: an uppercase letter followed by at least one
lowercase letter (a capitalized word), source line 116. -/
def matchCapitalized : List Char → Bool
  | c1 :: c2 :: _ => isUpperAZ c1 && isLowerAZ c2
  | _ => false

/-- Model of the regex matching a whole string of uppercase letters and
whitespace, source line 117. -/
def matchAllCaps (cs : List Char) : Bool :=
  !cs.isEmpty && cs.all (fun c => isUpperAZ c || pythonIsSpace c)

/-- Model of the anchored alternation of the literal heading words,
source line 118. -/
def matchKeyword (s : String) : Bool :=
  List.isPrefixOf "Chapter".toList s.toList || List.isPrefixOf "Section".toList s.toList ||
    List.isPrefixOf "Part".toList s.toList || List.isPrefixOf "Appendix".toList s.toList

/-- Containment of a character pattern in a character list, the Python
infix membership test on strings. -/
def charsContain (pat : List Char) : List Char → Bool
  | [] => pat.isEmpty
  | c :: rest => pat.isPrefixOf (c :: rest) || charsContain pat rest

/-- Bold detection of source line 183: the font name contains Bold, or its
lowercasing contains bold. -/
def boldOf (font : String) : Bool :=
  charsContain "Bold".toList font.toList || charsContain "bold".toList (pyLower font).toList

/-! ## FontLevelClassifier: detect_heading_levels, source lines 66-98 -/

/-- Label of the i-th largest distinct size, the if-chain of source
lines 85-96. -/
def levelName (i : Nat) : String :=
  if i = 0 then "H1" else if i = 1 then "H2" else if i = 2 then "H3"
  else if i = 3 then "H4" else if i = 4 then "H5" else "H6"

/-- Pair each size of the list with the label of its position, starting at
index i: the enumerate loop of source lines 84-96. -/
def assignLevels (i : Nat) : List ℚ → List (ℚ × String)
  | [] => []
  | s :: rest => (s, levelName i) :: assignLevels (i + 1) rest

/-- Comparison used to model sorted(-, reverse := true) on sizes. -/
def geQ (a b : ℚ) : Bool := decide (b ≤ a)

/-- Model of detect_heading_levels: collect the truthy font sizes, and map
the at most 6 largest distinct sizes to labels H1..H6. The truthiness test
of source line 73 drops a size equal to 0. -/
def detect_heading_levels (spans_data : List SpanInfo) : List (ℚ × String) :=
  let font_sizes := (spans_data.map SpanInfo.font_size).filter (fun s => decide (s ≠ 0))
  if font_sizes.isEmpty then []
  else
    let unique_sizes := sortLE geQ font_sizes.dedup
    assignLevels 0 (unique_sizes.take 6)

/-- Association-list lookup modelling the level_mapping dict (its keys are
pairwise distinct sizes). -/
def lookupSize : List (ℚ × String) → ℚ → Option String
  | [], _ => none
  | (s, lab) :: rest, x => if x = s then some lab else lookupSize rest x

/-! ## HeadingClassifier: is_likely_heading, source lines 100-132 -/

/-- Model of is_likely_heading: font-size gate, length gate, pattern rules,
bold rule, and the unconditional fall-through of source line 130. -/
def is_likely_heading (text : String) (font_size : ℚ) (is_bold : Bool)
    (level_mapping : List (ℚ × String)) : Bool :=
  if (lookupSize level_mapping font_size).isSome then
    let t := pyStrip text
    if t.length > 200 then false
    else if matchNumbered t.toList || matchCapitalized t.toList
        || matchAllCaps t.toList || matchKeyword t then true
    else if is_bold && decide (5 ≤ t.length) && decide (t.length ≤ 100) then true
    else true
  else false

/-! ## Span collection: source lines 161-188 -/

/-- The spans_data record built from one raw span, source lines 174-186:
skip spans whose stripped text is empty. -/
def spanRecord (pageNum : Int) (s : Span) : Option SpanInfo :=
  let t := pyStrip s.text
  if t = "" then none
  else some { text := t, font_size := s.size, font_name := s.font,
              bold := boldOf s.font, page := pageNum, y_pos := s.bbox1 }

/-- Spans of one page entering spans_data, with their 1-based page number:
the inner loops of source lines 169-186. -/
def spansOfPage (pageNum : Int) (p : Page) : List SpanInfo :=
  p.blocks.flatMap (fun b =>
    if b.type ≠ 0 then []
    else b.lines.flatMap (fun l => l.spans.filterMap (spanRecord pageNum)))

/-- Walk the pages with 1-based numbering. -/
def collectSpansAux : Int → List Page → List SpanInfo
  | _, [] => []
  | n, p :: rest => spansOfPage n p ++ collectSpansAux (n + 1) rest

/-- All spans_data of a document, in document scan order. -/
def collectSpans (doc : Doc) : List SpanInfo := collectSpansAux 1 doc.pages

/-! ## OutlineBuilder: extract_outline_from_pdf, source lines 134-225 -/

/-- The dedup key of source line 207: lowercased trimmed text and page. -/
def keyOf (sp : SpanInfo) : String × Int := (pyLower (pyStrip sp.text), sp.page)

/-- The entry a single heading-classified run contributes, if any: normalize
whitespace, drop runs of normalized length below 3 (source lines 212-220). -/
def emitEntry (m : List (ℚ × String)) (sp : SpanInfo) : Option OutlineEntry :=
  let text2 := normalizeWS (pyStrip sp.text)
  if 3 ≤ text2.length then
    some { level := (lookupSize m sp.font_size).getD "", text := text2, page := sp.page }
  else none

/-- The heading-extraction loop of source lines 194-220, with the seen-set
threaded explicitly. -/
def heuristicLoop (m : List (ℚ × String)) :
    List SpanInfo → List (String × Int) → List OutlineEntry
  | [], _ => []
  | sp :: rest, seen =>
    if is_likely_heading sp.text sp.font_size sp.bold m then
      let text := pyStrip sp.text
      let key := (pyLower text, sp.page)
      if key ∈ seen then heuristicLoop m rest seen
      else
        let text2 := normalizeWS text
        if 3 ≤ text2.length then
          { level := (lookupSize m sp.font_size).getD "", text := text2, page := sp.page }
            :: heuristicLoop m rest (key :: seen)
        else heuristicLoop m rest (key :: seen)
    else heuristicLoop m rest seen

/-- Page-only comparison of the final sort, source line 223. -/
def pageLE (a b : OutlineEntry) : Bool := decide (a.page ≤ b.page)

/-- The explicit-TOC branch of source lines 141-158. -/
def tocOutline (toc : List TocItem) : List OutlineEntry :=
  toc.map (fun it =>
    { level := "H" ++ toString (min it.level (6 : Int)), text := pyStrip it.title,
      page := it.page })

/-- Model of extract_outline_from_pdf: TOC branch if the TOC is non-empty,
otherwise the heuristic pipeline followed by the stable sort by page. -/
def extract_outline_from_pdf (doc : Doc) : List OutlineEntry :=
  if doc.toc ≠ [] then tocOutline doc.toc
  else
    let spans_data := collectSpans doc
    let level_mapping := detect_heading_levels spans_data
    sortLE pageLE (heuristicLoop level_mapping spans_data [])

/-! ## TitleSelector: extract_title_from_pdf, source lines 10-64 -/

/-- The per-line accumulation of source lines 33-43: concatenated nonblank
span texts separated by single spaces, and the max font size (seeded 0). -/
def lineStep (acc : String × ℚ) (sp : Span) : String × ℚ :=
  let t := pyStrip sp.text
  if t = "" then acc else (acc.1 ++ t ++ " ", max acc.2 sp.size)

/-- The whole-line accumulation, seeded with the empty text and size 0. -/
def lineAccum (spans : List Span) : String × ℚ := spans.foldl lineStep ("", 0)

/-- Title candidates of the first page, source lines 27-49: lines whose
trimmed concatenated text is longer than 3 characters. -/
def titleCandidates (p : Page) : List Candidate :=
  p.blocks.flatMap (fun b =>
    if b.type ≠ 0 then []
    else b.lines.filterMap (fun l =>
      let acc := lineAccum l.spans
      let lt := pyStrip acc.1
      if lt ≠ "" ∧ 3 < lt.length then some { text := lt, font_size := acc.2, y_pos := l.bbox1 }
      else none))

/-- The sort key of source line 52: y ascending, then font size descending. -/
def candLE (a b : Candidate) : Bool :=
  decide (a.y_pos < b.y_pos) || (decide (a.y_pos = b.y_pos) && decide (b.font_size ≤ a.font_size))

/-- The selection loop of source lines 55-57: first candidate of text length
at least 10. -/
def firstSubstantial : List Candidate → Option String
  | [] => none
  | c :: rest => if 10 ≤ c.text.length then some c.text else firstSubstantial rest

/-- The first-page fallback of extract_title_from_pdf, source lines 22-64. -/
def titleFromFirstPage (doc : Doc) : String :=
  match doc.pages with
  | [] => "Untitled Document"
  | p :: _ =>
    let cands := sortLE candLE (titleCandidates p)
    match firstSubstantial cands with
    | some t => t
    | none =>
      match cands with
      | c :: _ => c.text
      | [] => "Untitled Document"

/-- Model of extract_title_from_pdf: the metadata title when it is truthy and
trims to a truthy string (source lines 17-19), else the first-page fallback. -/
def extract_title_from_pdf (doc : Doc) : String :=
  match doc.metadata_title with
  | some t => if t ≠ "" ∧ pyStrip t ≠ "" then pyStrip t else titleFromFirstPage doc
  | none => titleFromFirstPage doc

/-! ## Orchestrator: process_single_pdf and process_all_pdfs,
source lines 227-289. Exceptions of the two extraction steps are modelled
with Except values; the title step runs first. -/

/-- Model of process_single_pdf: the try block evaluates the title step and
then the outline step; any failure discards partial results and yields the
sentinel, with success reported in the Bool. -/
def process_single_pdf (tr : Except String String)
    (outr : Except String (List OutlineEntry)) : Bool × DocResult :=
  match tr with
  | .error _ => (false, { title := "Processing Error", outline := [] })
  | .ok title =>
    match outr with
    | .error _ => (false, { title := "Processing Error", outline := [] })
    | .ok outline => (true, { title := title, outline := outline })

/-- Model of the loop of process_all_pdfs: every document of the batch is
processed, each independently of the outcomes of the others. -/
def process_all_pdfs
    (inputs : List (Except String String × Except String (List OutlineEntry))) :
    List (Bool × DocResult) :=
  inputs.map (fun i => process_single_pdf i.1 i.2)

/-! ## Auxiliary definitions used only in claim statements -/

/-- Rewrite the bounding-box top of one span by f. -/
def spanUpdateY (f : ℚ → ℚ) (s : Span) : Span := { s with bbox1 := f s.bbox1 }

/-- Rewrite the vertical data of every span of a line. -/
def lineUpdateY (f : ℚ → ℚ) (l : Line) : Line := { l with spans := l.spans.map (spanUpdateY f) }

/-- Rewrite the vertical data of every line of a block. -/
def blockUpdateY (f : ℚ → ℚ) (b : Block) : Block :=
  { b with lines := b.lines.map (lineUpdateY f) }

/-- Rewrite the vertical data of every block of a page. -/
def pageUpdateY (f : ℚ → ℚ) (p : Page) : Page := { blocks := p.blocks.map (blockUpdateY f) }

/-- Rewrite the span vertical positions of the whole document by f; used to
state that the outline never reads vertical positions. -/
def docUpdateY (f : ℚ → ℚ) (doc : Doc) : Doc :=
  { doc with pages := doc.pages.map (pageUpdateY f) }

/-- The y-rewrite on a collected span record. -/
def spanInfoUpdateY (f : ℚ → ℚ) (si : SpanInfo) : SpanInfo := { si with y_pos := f si.y_pos }

/-- The runs of a document that the classifier accepts as headings, in
document scan order. -/
def headingRuns (doc : Doc) : List SpanInfo :=
  (collectSpans doc).filter (fun sp =>
    is_likely_heading sp.text sp.font_size sp.bold (detect_heading_levels (collectSpans doc)))

/-- Concrete document refuting the normalized-key dedup reading: two runs on
the same page whose texts differ only in internal whitespace width. -/
def exampleDocNK : Doc :=
  ⟨none, [], [⟨[⟨0, [⟨[⟨"A  B", 12, "F", 0⟩, ⟨"A B", 12, "F", 1⟩], 0⟩]⟩]⟩]⟩

/-- A span record whose font size is 0, refuting the every-multiset reading
of the level-map claim (Python truthiness drops a 0.0 size). -/
def exampleZeroSpan : SpanInfo :=
  { text := "x", font_size := 0, font_name := "F", bold := false, page := 1, y_pos := 0 }

/-- A document with no pages and no metadata title but a non-empty explicit
TOC: it has zero runs yet a non-empty outline. -/
def exampleDocToc : Doc :=
  ⟨none, [⟨1, "Intro", 1⟩], []⟩

/-! ## Lemmas on the stable insertion sort -/

theorem perm_insertLE (le : α → α → Bool) (x : α) (l : List α) :
    (insertLE le x l).Perm (x :: l) := by
  induction l with
  | nil => exact List.Perm.refl _
  | cons y ys ih =>
    simp only [insertLE]
    by_cases h : le x y = true
    · simp only [h, if_true]
      exact List.Perm.refl _
    · simp only [h, if_false]
      exact (ih.cons y).trans (List.Perm.swap x y ys)

theorem perm_sortLE (le : α → α → Bool) (l : List α) : (sortLE le l).Perm l := by
  induction l with
  | nil => exact List.Perm.refl _
  | cons a l ih => exact (perm_insertLE le a (sortLE le l)).trans (ih.cons a)

theorem mem_insertLE (le : α → α → Bool) (x : α) (l : List α) (b : α) :
    b ∈ insertLE le x l ↔ b = x ∨ b ∈ l := by
  rw [(perm_insertLE le x l).mem_iff, List.mem_cons]

theorem pairwise_insertLE (le : α → α → Bool)
    (htot : ∀ a b, le a b = false → le b a = true)
    (htrans : ∀ a b c, le a b = true → le b c = true → le a c = true)
    (x : α) {l : List α} (hl : l.Pairwise (fun a b => le a b = true)) :
    (insertLE le x l).Pairwise (fun a b => le a b = true) := by
  induction l with
  | nil => simp [insertLE]
  | cons y ys ih =>
    rcases List.pairwise_cons.mp hl with ⟨hy, hys⟩
    simp only [insertLE]
    by_cases h : le x y = true
    · simp only [h, if_true]
      refine List.pairwise_cons.mpr ⟨?_, hl⟩
      intro b hb
      rcases List.mem_cons.mp hb with rfl | hb
      · exact h
      · exact htrans x y b h (hy b hb)
    · simp only [h, if_false]
      refine List.pairwise_cons.mpr ⟨?_, ih hys⟩
      intro b hb
      rcases (mem_insertLE le x ys b).mp hb with hbx | hb'
      · rw [hbx]
        exact htot x y (by simpa using h)
      · exact hy b hb'

theorem pairwise_sortLE (le : α → α → Bool)
    (htot : ∀ a b, le a b = false → le b a = true)
    (htrans : ∀ a b c, le a b = true → le b c = true → le a c = true)
    (l : List α) :
    (sortLE le l).Pairwise (fun a b => le a b = true) := by
  induction l with
  | nil => simp [sortLE]
  | cons a l ih => exact pairwise_insertLE le htot htrans a ih

theorem filter_insertLE (le : α → α → Bool) (p : α → Bool) (x : α) (l : List α)
    (h : ∀ y, p x = true → p y = true → le x y = true) :
    (insertLE le x l).filter p = if p x then x :: l.filter p else l.filter p := by
  induction l with
  | nil => simp [insertLE, List.filter_cons]
  | cons y ys ih =>
    simp only [insertLE]
    by_cases hxy : le x y = true
    · simp only [hxy, if_true, List.filter_cons]
    · simp only [hxy, if_false, List.filter_cons]
      by_cases hpy : p y = true
      · by_cases hpx : p x = true
        · exact absurd (h y hpx hpy) hxy
        · simp [hpy, hpx, ih]
      · simp [hpy, ih]

theorem filter_sortLE (le : α → α → Bool) (p : α → Bool)
    (hp : ∀ x y, p x = true → p y = true → le x y = true) (l : List α) :
    (sortLE le l).filter p = l.filter p := by
  induction l with
  | nil => rfl
  | cons a l ih =>
    have hstep : sortLE le (a :: l) = insertLE le a (sortLE le l) := rfl
    rw [hstep, filter_insertLE le p a (sortLE le l) (fun y => hp a y), ih, List.filter_cons]

/-! ## Lemmas on first-occurrence deduplication -/

theorem dedupFirst_mem_aux {α κ : Type} [DecidableEq κ] (key : α → κ) :
    ∀ (n : Nat) (l : List α), l.length ≤ n → ∀ x ∈ dedupFirst key l, x ∈ l := by
  intro n
  induction n with
  | zero =>
    intro l hl x hx
    rw [List.length_eq_zero.mp (Nat.le_zero.mp hl)] at hx
    simp [dedupFirst] at hx
  | succ n ih =>
    intro l hl x hx
    match l with
    | [] => simp [dedupFirst] at hx
    | a :: rest =>
      rw [dedupFirst] at hx
      rcases List.mem_cons.mp hx with rfl | hx
      · exact List.mem_cons_self _ _
      · have hlen : (rest.filter fun y => decide (key y ≠ key a)).length ≤ n :=
          Nat.le_trans (List.length_filter_le _ _)
            (Nat.succ_le_succ_iff.mp (by simpa using hl))
        exact List.mem_cons_of_mem _
          (List.mem_of_mem_filter (ih _ hlen x hx))

theorem dedupFirst_mem {α κ : Type} [DecidableEq κ] (key : α → κ) (l : List α) :
    ∀ x ∈ dedupFirst key l, x ∈ l :=
  dedupFirst_mem_aux key l.length l (Nat.le_refl _)

theorem dedupFirst_sublist_aux {α κ : Type} [DecidableEq κ] (key : α → κ) :
    ∀ (n : Nat) (l : List α), l.length ≤ n → (dedupFirst key l).Sublist l := by
  intro n
  induction n with
  | zero =>
    intro l hl
    rw [List.length_eq_zero.mp (Nat.le_zero.mp hl)]
    simp [dedupFirst]
  | succ n ih =>
    intro l hl
    match l with
    | [] => simp [dedupFirst]
    | a :: rest =>
      rw [dedupFirst]
      refine List.Sublist.cons₂ a ?_
      have hlen : (rest.filter fun y => decide (key y ≠ key a)).length ≤ n :=
        Nat.le_trans (List.length_filter_le _ _)
          (Nat.succ_le_succ_iff.mp (by simpa using hl))
      exact (ih _ hlen).trans (List.filter_sublist rest)

theorem dedupFirst_sublist {α κ : Type} [DecidableEq κ] (key : α → κ) (l : List α) :
    (dedupFirst key l).Sublist l :=
  dedupFirst_sublist_aux key l.length l (Nat.le_refl _)

theorem dedupFirst_pairwise_aux {α κ : Type} [DecidableEq κ] (key : α → κ) :
    ∀ (n : Nat) (l : List α), l.length ≤ n →
      (dedupFirst key l).Pairwise (fun a b => key a ≠ key b) := by
  intro n
  induction n with
  | zero =>
    intro l hl
    rw [List.length_eq_zero.mp (Nat.le_zero.mp hl)]
    simp [dedupFirst]
  | succ n ih =>
    intro l hl
    match l with
    | [] => simp [dedupFirst]
    | a :: rest =>
      rw [dedupFirst]
      have hlen : (rest.filter fun y => decide (key y ≠ key a)).length ≤ n :=
        Nat.le_trans (List.length_filter_le _ _)
          (Nat.succ_le_succ_iff.mp (by simpa using hl))
      refine List.pairwise_cons.mpr ⟨?_, ih _ hlen⟩
      intro b hb
      have hbf := dedupFirst_mem_aux key n _ hlen b hb
      have := List.mem_filter.mp hbf
      intro he
      have hne : key b ≠ key a := by simpa using this.2
      exact hne he.symm

theorem dedupFirst_pairwise {α κ : Type} [DecidableEq κ] (key : α → κ) (l : List α) :
    (dedupFirst key l).Pairwise (fun a b => key a ≠ key b) :=
  dedupFirst_pairwise_aux key l.length l (Nat.le_refl _)

theorem dedupFirst_keeps_first_aux {α κ : Type} [DecidableEq κ] (key : α → κ) :
    ∀ (n : Nat) (l₁ : List α) (x : α) (l₂ : List α), l₁.length ≤ n →
      (∀ y ∈ l₁, key y ≠ key x) → x ∈ dedupFirst key (l₁ ++ x :: l₂) := by
  intro n
  induction n with
  | zero =>
    intro l₁ x l₂ h1 _
    rw [List.length_eq_zero.mp (Nat.le_zero.mp h1), List.nil_append, dedupFirst]
    exact List.mem_cons_self _ _
  | succ n ih =>
    intro l₁ x l₂ h1 h2
    match l₁ with
    | [] =>
      rw [List.nil_append, dedupFirst]
      exact List.mem_cons_self _ _
    | y :: l₁' =>
      rw [List.cons_append, dedupFirst]
      apply List.mem_cons_of_mem
      have hky : key x ≠ key y := fun he => h2 y (List.mem_cons_self _ _) he.symm
      have hc : decide (key x ≠ key y) = true := by simpa using hky
      rw [List.filter_append, List.filter_cons, if_pos hc]
      refine ih (l₁'.filter _) x (l₂.filter _)
        (Nat.le_trans (List.length_filter_le _ _)
          (Nat.succ_le_succ_iff.mp (by simpa using h1))) ?_
      intro y' hy'
      exact h2 y' (List.mem_cons_of_mem _ (List.mem_of_mem_filter hy'))

theorem dedupFirst_keeps_first {α κ : Type} [DecidableEq κ] (key : α → κ)
    (l₁ : List α) (x : α) (l₂ : List α) (h : ∀ y ∈ l₁, key y ≠ key x) :
    x ∈ dedupFirst key (l₁ ++ x :: l₂) :=
  dedupFirst_keeps_first_aux key l₁.length l₁ x l₂ (Nat.le_refl _) h

/-! ## The heading loop as declarative first-occurrence dedup -/

theorem decide_notMem_cons {κ : Type} [DecidableEq κ] (a x : κ) (s : List κ) :
    decide (a ∉ x :: s) = (decide (a ≠ x) && decide (a ∉ s)) := by
  by_cases h1 : a = x <;> by_cases h2 : a ∈ s <;> simp [h1, h2]

theorem heuristicLoop_cons_not_heading (m : List (ℚ × String)) (sp : SpanInfo)
    (rest : List SpanInfo) (seen : List (String × Int))
    (hh : is_likely_heading sp.text sp.font_size sp.bold m = false) :
    heuristicLoop m (sp :: rest) seen = heuristicLoop m rest seen := by
  simp [heuristicLoop, hh]

theorem heuristicLoop_cons_seen (m : List (ℚ × String)) (sp : SpanInfo)
    (rest : List SpanInfo) (seen : List (String × Int))
    (hh : is_likely_heading sp.text sp.font_size sp.bold m = true)
    (hs : keyOf sp ∈ seen) :
    heuristicLoop m (sp :: rest) seen = heuristicLoop m rest seen := by
  have hs' : (pyLower (pyStrip sp.text), sp.page) ∈ seen := hs
  simp [heuristicLoop, hh, hs']

theorem heuristicLoop_cons_new (m : List (ℚ × String)) (sp : SpanInfo)
    (rest : List SpanInfo) (seen : List (String × Int))
    (hh : is_likely_heading sp.text sp.font_size sp.bold m = true)
    (hs : keyOf sp ∉ seen) :
    heuristicLoop m (sp :: rest) seen =
      (emitEntry m sp).toList ++ heuristicLoop m rest (keyOf sp :: seen) := by
  have hs' : (pyLower (pyStrip sp.text), sp.page) ∉ seen := hs
  by_cases hl : 3 ≤ (normalizeWS (pyStrip sp.text)).length <;>
    simp [heuristicLoop, emitEntry, keyOf, hh, hs', hl]

theorem heuristicLoop_eq (m : List (ℚ × String)) :
    ∀ (sps : List SpanInfo) (seen : List (String × Int)),
      heuristicLoop m sps seen =
        (dedupFirst keyOf
          ((sps.filter (fun sp => is_likely_heading sp.text sp.font_size sp.bold m)).filter
            (fun sp => decide (keyOf sp ∉ seen)))).filterMap (emitEntry m) := by
  intro sps
  induction sps with
  | nil => intro seen; simp [heuristicLoop, dedupFirst]
  | cons sp rest ih =>
    intro seen
    by_cases hh : is_likely_heading sp.text sp.font_size sp.bold m = true
    · by_cases hseen : keyOf sp ∈ seen
      · rw [heuristicLoop_cons_seen m sp rest seen hh hseen, ih]
        have h2 : decide (keyOf sp ∉ seen) = false := by simpa using hseen
        rw [List.filter_cons, if_pos hh, List.filter_cons, if_neg (by simp [h2])]
      · rw [heuristicLoop_cons_new m sp rest seen hh hseen, ih]
        have h2 : decide (keyOf sp ∉ seen) = true := by simpa using hseen
        rw [List.filter_cons, if_pos hh, List.filter_cons, if_pos (by simp [h2])]
        rw [dedupFirst, List.filterMap_cons]
        have hfilters :
            (((rest.filter (fun sp => is_likely_heading sp.text sp.font_size sp.bold m)).filter
                (fun q => decide (keyOf q ∉ seen))).filter
                (fun q => decide (keyOf q ≠ keyOf sp)))
              = ((rest.filter (fun sp => is_likely_heading sp.text sp.font_size sp.bold m)).filter
                  (fun q => decide (keyOf q ∉ keyOf sp :: seen))) := by
          rw [List.filter_filter]
          refine List.filter_congr ?_
          intro q _
          by_cases h1 : keyOf q = keyOf sp <;> by_cases h2 : keyOf q ∈ seen <;>
            simp [h1, h2, List.mem_cons]
        rw [hfilters]
        cases hemit : emitEntry m sp <;> simp [hemit]
    · have hh' : is_likely_heading sp.text sp.font_size sp.bold m = false := by
        simpa using hh
      rw [heuristicLoop_cons_not_heading m sp rest seen hh', ih]
      rw [List.filter_cons, if_neg (by simp [hh'])]

theorem heuristicLoop_filter_seen (m : List (ℚ × String)) (k : String × Int) :
    ∀ (sps : List SpanInfo) (seen : List (String × Int)), k ∈ seen →
      heuristicLoop m sps seen
        = heuristicLoop m (sps.filter (fun q => decide (keyOf q ≠ k))) seen := by
  intro sps
  induction sps with
  | nil => intro seen _; rfl
  | cons sp rest ih =>
    intro seen hk
    by_cases hh : is_likely_heading sp.text sp.font_size sp.bold m = true
    · by_cases hkey : keyOf sp = k
      · rw [heuristicLoop_cons_seen m sp rest seen hh (by rw [hkey]; exact hk)]
        rw [List.filter_cons, if_neg (by simp [hkey])]
        exact ih seen hk
      · rw [List.filter_cons, if_pos (by simpa using hkey)]
        by_cases hseen : keyOf sp ∈ seen
        · rw [heuristicLoop_cons_seen m sp rest seen hh hseen,
            heuristicLoop_cons_seen m sp _ seen hh hseen]
          exact ih seen hk
        · rw [heuristicLoop_cons_new m sp rest seen hh hseen,
            heuristicLoop_cons_new m sp _ seen hh hseen,
            ih (keyOf sp :: seen) (List.mem_cons_of_mem _ hk)]
    · have hh' : is_likely_heading sp.text sp.font_size sp.bold m = false := by
        simpa using hh
      by_cases hkey : keyOf sp = k
      · rw [heuristicLoop_cons_not_heading m sp rest seen hh',
          List.filter_cons, if_neg (by simp [hkey])]
        exact ih seen hk
      · rw [List.filter_cons, if_pos (by simpa using hkey),
          heuristicLoop_cons_not_heading m sp rest seen hh',
          heuristicLoop_cons_not_heading m sp _ seen hh']
        exact ih seen hk

/-! ## Claim C1: explicit-tree precedence -/

/-- C1: when the explicit structural tree is non-empty, the outline is its
entrywise image in input order (level H followed by min(depth,6), trimmed
label, page), with no deduplication and no filtering; the result is the same
for every page list, so the heuristic path contributes nothing. -/
theorem explicit_tree_outline (doc : Doc) (h : doc.toc ≠ []) :
    extract_outline_from_pdf doc
        = doc.toc.map (fun it =>
            { level := "H" ++ toString (min it.level (6 : Int)), text := pyStrip it.title,
              page := it.page })
  ∧ ∀ ps : List Page,
      extract_outline_from_pdf ⟨doc.metadata_title, doc.toc, ps⟩
        = extract_outline_from_pdf doc := by
  constructor
  · simp [extract_outline_from_pdf, h, tocOutline]
  · intro ps
    simp [extract_outline_from_pdf, h, tocOutline]

/-- Witness for C1 at a concrete one-entry tree. -/
theorem explicit_tree_outline_witness :
    exampleDocToc.toc ≠ []
  ∧ extract_outline_from_pdf exampleDocToc
      = exampleDocToc.toc.map (fun it =>
          { level := "H" ++ toString (min it.level (6 : Int)), text := pyStrip it.title,
            page := it.page }) :=
  ⟨by decide, (explicit_tree_outline exampleDocToc (by decide)).1⟩

/-! ## Claim C2: the classifier is the size-and-length gate -/

/-- C2: the heading classifier returns true exactly when the font size is a
key of the level map and the trimmed text length is at most 200; the pattern
rules and the bold-and-length rule never change the outcome. -/
theorem heading_iff_size_and_length (text : String) (font_size : ℚ) (is_bold : Bool)
    (level_mapping : List (ℚ × String)) :
    is_likely_heading text font_size is_bold level_mapping
      = ((lookupSize level_mapping font_size).isSome
          && decide ((pyStrip text).length ≤ 200)) := by
  by_cases hk : (lookupSize level_mapping font_size).isSome = true
  · by_cases hlen : (pyStrip text).length > 200
    · simp [is_likely_heading, hk, hlen]
    · simp [is_likely_heading, hk, hlen]
      omega
  · simp [is_likely_heading, hk]

/-! ## Claim C7: per-document error isolation -/

/-- C7: a failure in either extraction step yields exactly the sentinel
result with no mixing of partial values, success yields exactly the real
pair, and every batch element is processed independently of its
neighbours. -/
theorem error_isolation :
    (∀ (e : String) (outr : Except String (List OutlineEntry)),
        process_single_pdf (Except.error e) outr
          = (false, { title := "Processing Error", outline := [] }))
  ∧ (∀ (t e : String),
        process_single_pdf (Except.ok t) (Except.error e)
          = (false, { title := "Processing Error", outline := [] }))
  ∧ (∀ (t : String) (o : List OutlineEntry),
        process_single_pdf (Except.ok t) (Except.ok o)
          = (true, { title := t, outline := o }))
  ∧ ∀ (pre : List (Except String String × Except String (List OutlineEntry))) (x) (post),
      process_all_pdfs (pre ++ x :: post)
        = process_all_pdfs pre ++ process_single_pdf x.1 x.2 :: process_all_pdfs post := by
  refine ⟨fun e outr => rfl, fun t e => rfl, fun t o => rfl, fun pre x post => ?_⟩
  simp [process_all_pdfs]

/-! ## Claim C10: a short run records its dedup key -/

/-- C10: a heading-classified run whose normalized text is shorter than 3
characters emits no outline entry yet records its key, and every later run
with the same key (same page, same lowercased trimmed text) is suppressed:
deleting those later runs does not change the loop result. -/
theorem short_run_key_poisoning (m : List (ℚ × String)) (sp : SpanInfo)
    (rest : List SpanInfo) (seen : List (String × Int))
    (hh : is_likely_heading sp.text sp.font_size sp.bold m = true)
    (hshort : (normalizeWS (pyStrip sp.text)).length < 3)
    (hnew : keyOf sp ∉ seen) :
    heuristicLoop m (sp :: rest) seen = heuristicLoop m rest (keyOf sp :: seen)
  ∧ heuristicLoop m (sp :: rest) seen
      = heuristicLoop m (sp :: rest.filter (fun q => decide (keyOf q ≠ keyOf sp))) seen := by
  have hemit : emitEntry m sp = none := by
    simp only [emitEntry]
    rw [if_neg (by omega)]
  have h1 : heuristicLoop m (sp :: rest) seen = heuristicLoop m rest (keyOf sp :: seen) := by
    rw [heuristicLoop_cons_new m sp rest seen hh hnew, hemit]
    rfl
  refine ⟨h1, ?_⟩
  rw [h1, heuristicLoop_cons_new m sp _ seen hh hnew, hemit]
  simp only [Option.toList, List.nil_append]
  exact heuristicLoop_filter_seen m (keyOf sp) rest (keyOf sp :: seen) (List.mem_cons_self _ _)

/-- Witness for C10: a concrete 2-character run followed by a same-key run. -/
theorem short_run_key_poisoning_witness :
    is_likely_heading "ab" 12 false [(12, "H1")] = true
  ∧ (normalizeWS (pyStrip "ab")).length < 3
  ∧ heuristicLoop [(12, "H1")]
        [⟨"ab", 12, "F", false, 1, 0⟩, ⟨"ab", 12, "F", false, 1, 5⟩] []
      = heuristicLoop [(12, "H1")] [⟨"ab", 12, "F", false, 1, 5⟩]
          [keyOf ⟨"ab", 12, "F", false, 1, 0⟩] :=
  ⟨by decide, by decide,
    (short_run_key_poisoning [(12, "H1")] ⟨"ab", 12, "F", false, 1, 0⟩
      [⟨"ab", 12, "F", false, 1, 5⟩] [] (by decide) (by decide) (by decide)).1⟩

/-! ## Claim C3: the dedup key is the pre-normalization trimmed text -/

/-- C3 as stated is refuted: the dedup key is computed before whitespace
normalization, so these two runs with identical normalized text on the same
page both appear in the outline. -/
theorem normalized_key_counterexample :
    (extract_outline_from_pdf exampleDocNK).map (fun e => (e.text, e.page))
        = [("A B", 1), ("A B", 1)]
  ∧ ¬ (extract_outline_from_pdf exampleDocNK).Pairwise
        (fun a b => ¬(a.text = b.text ∧ a.page = b.page)) := by
  constructor
  · decide
  · decide

/-- C3 amended: the heuristic outline is the page-stable sort of the entries
contributed by the first-occurrence dedup of the heading runs under the key
(lowercased trimmed text before whitespace normalization, page); surviving
runs have pairwise-distinct keys, form a sublist of the heading runs, and
a run preceded by no same-key run always survives, while the same text on a
different page has a different key and is kept separately. -/
theorem dedup_trimmed_key (doc : Doc) (h : doc.toc = []) :
    extract_outline_from_pdf doc
        = sortLE pageLE
            ((dedupFirst keyOf (headingRuns doc)).filterMap
              (emitEntry (detect_heading_levels (collectSpans doc))))
  ∧ (dedupFirst keyOf (headingRuns doc)).Pairwise (fun a b => keyOf a ≠ keyOf b)
  ∧ (dedupFirst keyOf (headingRuns doc)).Sublist (headingRuns doc)
  ∧ ∀ (l₁ : List SpanInfo) (x : SpanInfo) (l₂ : List SpanInfo),
      headingRuns doc = l₁ ++ x :: l₂ → (∀ y ∈ l₁, keyOf y ≠ keyOf x) →
        x ∈ dedupFirst keyOf (headingRuns doc) := by
  refine ⟨?_, dedupFirst_pairwise keyOf _, dedupFirst_sublist keyOf _, ?_⟩
  · have hbranch : extract_outline_from_pdf doc
        = sortLE pageLE (heuristicLoop (detect_heading_levels (collectSpans doc))
            (collectSpans doc) []) := by
      simp only [extract_outline_from_pdf]
      rw [if_neg (by simp [h])]
    rw [hbranch, heuristicLoop_eq]
    have hid : ((collectSpans doc).filter
          (fun sp => is_likely_heading sp.text sp.font_size sp.bold
            (detect_heading_levels (collectSpans doc)))).filter
          (fun sp => decide (keyOf sp ∉ ([] : List (String × Int))))
        = headingRuns doc := by
      rw [headingRuns]
      exact List.filter_eq_self.mpr (by intro a _; simp)
    rw [hid]
  · intro l₁ x l₂ heq hkk
    rw [heq]
    exact dedupFirst_keeps_first keyOf l₁ x l₂ hkk

/-! ## Claim C4: the level map -/

theorem assignLevels_length (i : Nat) (l : List ℚ) :
    (assignLevels i l).length = l.length := by
  induction l generalizing i with
  | nil => rfl
  | cons s rest ih => simp [assignLevels, ih]

theorem assignLevels_map_fst (i : Nat) (l : List ℚ) :
    (assignLevels i l).map Prod.fst = l := by
  induction l generalizing i with
  | nil => rfl
  | cons s rest ih => simp [assignLevels, ih]

theorem assignLevels_map_snd (i : Nat) (l : List ℚ) :
    (assignLevels i l).map Prod.snd
      = (List.range l.length).map (fun j => levelName (i + j)) := by
  induction l generalizing i with
  | nil => rfl
  | cons s rest ih =>
    simp only [assignLevels, List.map_cons, ih, List.length_cons, List.range_succ_eq_map,
      List.map_map]
    refine congrArg₂ List.cons (by simp) ?_
    refine List.map_congr_left ?_
    intro a _
    simp only [Function.comp_apply]
    congr 1
    omega

theorem assignLevels_pairwise (R : ℚ → ℚ → Prop) :
    ∀ (l : List ℚ) (i : Nat), l.Pairwise R →
      (assignLevels i l).Pairwise (fun p q : ℚ × String => R p.1 q.1) := by
  intro l
  induction l with
  | nil => intro i _; simp [assignLevels]
  | cons s rest ih =>
    intro i hl
    rcases List.pairwise_cons.mp hl with ⟨hs, hrest⟩
    refine List.pairwise_cons.mpr ⟨?_, ih (i + 1) hrest⟩
    intro q hq
    have hm : q.1 ∈ rest := by
      have := List.mem_map_of_mem Prod.fst hq
      rwa [assignLevels_map_fst] at this
    exact hs q.1 hm

theorem geQ_total : ∀ a b : ℚ, geQ a b = false → geQ b a = true := by
  intro a b h
  simp only [geQ, decide_eq_false_iff_not] at h
  simpa [geQ] using le_of_not_le h

theorem geQ_trans : ∀ a b c : ℚ, geQ a b = true → geQ b c = true → geQ a c = true := by
  intro a b c h1 h2
  simp only [geQ, decide_eq_true_eq] at h1 h2
  simpa [geQ] using le_trans h2 h1

theorem pairwise_gt_sortedSizes (fs : List ℚ) :
    (sortLE geQ fs.dedup).Pairwise (fun a b : ℚ => b < a) := by
  have hge := pairwise_sortLE geQ geQ_total geQ_trans fs.dedup
  have hnd : (sortLE geQ fs.dedup).Nodup :=
    ((perm_sortLE geQ fs.dedup).symm).nodup (List.nodup_dedup fs)
  refine (hge.and hnd).imp ?_
  intro a b h
  have h1 : b ≤ a := by simpa [geQ] using h.1
  exact lt_of_le_of_ne h1 (Ne.symm h.2)

/-- C4 is refuted at a document observing only the font size 0: the Python
truthiness test of source line 73 drops a 0.0 size, giving an empty map
where the claim requires min(1,6) = 1 entries. -/
theorem level_map_zero_counterexample :
    (detect_heading_levels [exampleZeroSpan]).length
      ≠ min (([exampleZeroSpan].map SpanInfo.font_size).dedup.length) 6 := by
  decide

/-- C4 amended: over runs with nonzero font sizes, the level map has
min(n, 6) entries for n distinct observed sizes, its keys are observed
sizes, strictly descending along the entry list, every unmapped observed
size is smaller than every key, and the labels are H1, H2, ... in entry
order, so a strictly larger key carries a strictly smaller level number;
no sizes observed gives the empty map. -/
theorem level_map_correct (spans_data : List SpanInfo)
    (hnz : ∀ sp ∈ spans_data, sp.font_size ≠ 0) :
    (detect_heading_levels spans_data).length
        = min ((spans_data.map SpanInfo.font_size).dedup.length) 6
  ∧ (∀ pr ∈ detect_heading_levels spans_data, pr.1 ∈ spans_data.map SpanInfo.font_size)
  ∧ (detect_heading_levels spans_data).Pairwise
      (fun pr qr : ℚ × String => qr.1 < pr.1)
  ∧ (∀ s ∈ spans_data.map SpanInfo.font_size,
        s ∉ (detect_heading_levels spans_data).map Prod.fst →
          ∀ pr ∈ detect_heading_levels spans_data, s < pr.1)
  ∧ (detect_heading_levels spans_data).map Prod.snd
      = ["H1", "H2", "H3", "H4", "H5", "H6"].take
          (detect_heading_levels spans_data).length := by
  by_cases hemp : spans_data = []
  · subst hemp; simp [detect_heading_levels]
  · have hne : spans_data.map SpanInfo.font_size ≠ [] :=
      fun hcon => hemp (by simpa using hcon)
    have hfilter : (spans_data.map SpanInfo.font_size).filter (fun s => decide (s ≠ 0))
        = spans_data.map SpanInfo.font_size := by
      refine List.filter_eq_self.mpr ?_
      intro a ha
      rcases List.mem_map.mp ha with ⟨sp, hsp', rfl⟩
      simpa using hnz sp hsp'
    have hdetect : detect_heading_levels spans_data
        = assignLevels 0 ((sortLE geQ (spans_data.map SpanInfo.font_size).dedup).take 6) := by
      simp only [detect_heading_levels, hfilter]
      rw [if_neg (by simp [hne])]
    set fs := spans_data.map SpanInfo.font_size with hfsdef
    set u := sortLE geQ fs.dedup with hudef
    set tl := u.take 6 with htldef
    have hulen : u.length = fs.dedup.length := (perm_sortLE geQ fs.dedup).length_eq
    have humem : ∀ x : ℚ, x ∈ u ↔ x ∈ fs := by
      intro x
      rw [(perm_sortLE geQ fs.dedup).mem_iff, List.mem_dedup]
    have hu_gt : u.Pairwise (fun a b : ℚ => b < a) := pairwise_gt_sortedSizes fs
    have htl_gt : tl.Pairwise (fun a b : ℚ => b < a) :=
      List.Pairwise.sublist (List.take_sublist 6 u) hu_gt
    have hmfst : (detect_heading_levels spans_data).map Prod.fst = tl := by
      rw [hdetect]; exact assignLevels_map_fst 0 tl
    have hlen : (detect_heading_levels spans_data).length = tl.length := by
      rw [hdetect]; exact assignLevels_length 0 tl
    have htllen : tl.length = min 6 u.length := List.length_take 6 u
    refine ⟨?_, ?_, ?_, ?_, ?_⟩
    · rw [hlen, htllen, hulen]; omega
    · intro pr hpr
      have : pr.1 ∈ tl := hmfst ▸ List.mem_map_of_mem Prod.fst hpr
      exact (humem pr.1).mp (List.mem_of_mem_take this)
    · rw [hdetect]
      exact assignLevels_pairwise (fun a b : ℚ => b < a) tl 0 htl_gt
    · intro s hs hnot prr hprr
      have hsu : s ∈ u := (humem s).mpr hs
      have hsd : s ∈ u.drop 6 := by
        rcases List.mem_append.mp ((List.take_append_drop 6 u) ▸ hsu) with h1 | h1
        · exact absurd h1 (by rwa [hmfst] at hnot)
        · exact h1
      have hcross := (List.pairwise_append.mp
        ((List.take_append_drop 6 u).symm ▸ hu_gt)).2.2
      have hpt : prr.1 ∈ tl := hmfst ▸ List.mem_map_of_mem Prod.fst hprr
      exact hcross prr.1 hpt s hsd
    · rw [hdetect, assignLevels_map_snd, assignLevels_length]
      have hb : tl.length ≤ 6 := by rw [htllen]; omega
      generalize tl.length = k at hb ⊢
      interval_cases k <;> decide

/-- Witness for C4 at a document with three distinct nonzero sizes. -/
theorem level_map_correct_witness :
    (∀ sp ∈ ([⟨"a", 12, "F", false, 1, 0⟩, ⟨"b", 9, "F", false, 1, 0⟩,
        ⟨"c", 12, "F", false, 1, 0⟩, ⟨"d", 15, "F", false, 2, 0⟩] : List SpanInfo),
      sp.font_size ≠ 0)
  ∧ (detect_heading_levels [⟨"a", 12, "F", false, 1, 0⟩, ⟨"b", 9, "F", false, 1, 0⟩,
        ⟨"c", 12, "F", false, 1, 0⟩, ⟨"d", 15, "F", false, 2, 0⟩]).length
      = min (([⟨"a", 12, "F", false, 1, 0⟩, ⟨"b", 9, "F", false, 1, 0⟩,
          ⟨"c", 12, "F", false, 1, 0⟩,
          ⟨"d", 15, "F", false, 2, 0⟩].map SpanInfo.font_size).dedup.length) 6 :=
  ⟨by decide, (level_map_correct _ (by decide)).1⟩

/-! ## Claim C6: page-stable order, vertical position unused -/

theorem pageLE_total : ∀ a b : OutlineEntry, pageLE a b = false → pageLE b a = true := by
  intro a b h
  simp only [pageLE, decide_eq_false_iff_not] at h
  simpa [pageLE] using le_of_not_le h

theorem pageLE_trans : ∀ a b c : OutlineEntry,
    pageLE a b = true → pageLE b c = true → pageLE a c = true := by
  intro a b c h1 h2
  simp only [pageLE, decide_eq_true_eq] at h1 h2
  simpa [pageLE] using le_trans h1 h2

theorem spanRecord_updateY (f : ℚ → ℚ) (n : Int) (s : Span) :
    spanRecord n (spanUpdateY f s) = (spanRecord n s).map (spanInfoUpdateY f) := by
  simp only [spanRecord, spanUpdateY]
  by_cases ht : pyStrip s.text = "" <;> simp [ht, spanInfoUpdateY]

theorem spansFilterMap_updateY (f : ℚ → ℚ) (n : Int) (spans : List Span) :
    (spans.map (spanUpdateY f)).filterMap (spanRecord n)
      = (spans.filterMap (spanRecord n)).map (spanInfoUpdateY f) := by
  induction spans with
  | nil => rfl
  | cons s rest ih =>
    simp only [List.map_cons, List.filterMap_cons, spanRecord_updateY]
    cases spanRecord n s <;> simp [ih]

theorem blockSpans_updateY (f : ℚ → ℚ) (n : Int) (lines : List Line) :
    (lines.map (lineUpdateY f)).flatMap (fun l => l.spans.filterMap (spanRecord n))
      = (lines.flatMap (fun l => l.spans.filterMap (spanRecord n))).map
          (spanInfoUpdateY f) := by
  induction lines with
  | nil => rfl
  | cons l ls ih =>
    simp only [List.map_cons, List.flatMap_cons, List.map_append, ih, lineUpdateY]
    congr 1
    exact spansFilterMap_updateY f n l.spans

theorem spansOfPage_updateY (f : ℚ → ℚ) (n : Int) (p : Page) :
    spansOfPage n (pageUpdateY f p) = (spansOfPage n p).map (spanInfoUpdateY f) := by
  simp only [spansOfPage, pageUpdateY]
  induction p.blocks with
  | nil => rfl
  | cons b bs ih =>
    simp only [List.map_cons, List.flatMap_cons, List.map_append, ih]
    congr 1
    by_cases hb : b.type ≠ 0
    · simp [blockUpdateY, hb]
    · simp only [blockUpdateY]
      rw [if_neg (by simpa using hb), if_neg (by simpa using hb)]
      exact blockSpans_updateY f n b.lines

theorem collectSpansAux_updateY (f : ℚ → ℚ) :
    ∀ (n : Int) (pages : List Page),
      collectSpansAux n (pages.map (pageUpdateY f))
        = (collectSpansAux n pages).map (spanInfoUpdateY f) := by
  intro n pages
  induction pages generalizing n with
  | nil => rfl
  | cons p ps ih =>
    simp only [List.map_cons, collectSpansAux, List.map_append, spansOfPage_updateY, ih]

theorem detect_updateY (f : ℚ → ℚ) (sps : List SpanInfo) :
    detect_heading_levels (sps.map (spanInfoUpdateY f)) = detect_heading_levels sps := by
  have hmap : sps.map (SpanInfo.font_size ∘ spanInfoUpdateY f) = sps.map SpanInfo.font_size :=
    List.map_congr_left (fun a _ => rfl)
  simp only [detect_heading_levels, List.map_map, hmap]

theorem heuristicLoop_updateY (f : ℚ → ℚ) (m : List (ℚ × String)) :
    ∀ (sps : List SpanInfo) (seen : List (String × Int)),
      heuristicLoop m (sps.map (spanInfoUpdateY f)) seen = heuristicLoop m sps seen := by
  intro sps
  induction sps with
  | nil => intro seen; rfl
  | cons sp rest ih =>
    intro seen
    have hkey : keyOf (spanInfoUpdateY f sp) = keyOf sp := rfl
    have hemit : emitEntry m (spanInfoUpdateY f sp) = emitEntry m sp := rfl
    simp only [List.map_cons]
    by_cases hh : is_likely_heading sp.text sp.font_size sp.bold m = true
    · by_cases hs : keyOf sp ∈ seen
      · rw [heuristicLoop_cons_seen m (spanInfoUpdateY f sp) _ seen hh (hkey ▸ hs),
          heuristicLoop_cons_seen m sp rest seen hh hs, ih]
      · rw [heuristicLoop_cons_new m (spanInfoUpdateY f sp) _ seen hh (hkey ▸ hs),
          heuristicLoop_cons_new m sp rest seen hh hs, hemit, hkey, ih]
    · have hh' : is_likely_heading sp.text sp.font_size sp.bold m = false := by simpa using hh
      rw [heuristicLoop_cons_not_heading m (spanInfoUpdateY f sp) _ seen hh',
        heuristicLoop_cons_not_heading m sp rest seen hh', ih]

theorem outline_updateY (f : ℚ → ℚ) (doc : Doc) :
    extract_outline_from_pdf (docUpdateY f doc) = extract_outline_from_pdf doc := by
  by_cases h : doc.toc = []
  · simp only [extract_outline_from_pdf]
    rw [if_neg (by simp [docUpdateY, h]), if_neg (by simp [h])]
    have hcol : collectSpans (docUpdateY f doc) = (collectSpans doc).map (spanInfoUpdateY f) := by
      simp only [collectSpans, docUpdateY]
      exact collectSpansAux_updateY f 1 doc.pages
    show sortLE pageLE (heuristicLoop (detect_heading_levels (collectSpans (docUpdateY f doc)))
        (collectSpans (docUpdateY f doc)) []) = _
    rw [hcol, detect_updateY, heuristicLoop_updateY]
  · simp only [extract_outline_from_pdf]
    rw [if_pos (by simpa [docUpdateY] using h), if_pos h]
    rfl

/-- C6: on the heuristic path the final outline is stably sorted by page
only: page numbers are non-decreasing, the entries of every fixed page
appear exactly as in the encounter-order list produced by the scan loop,
the outline is a permutation of that list, and rewriting every vertical
position of the document leaves the outline unchanged, so vertical position
is never a sort key. -/
theorem outline_order_correct (doc : Doc) (h : doc.toc = []) :
    (extract_outline_from_pdf doc).Pairwise (fun a b => a.page ≤ b.page)
  ∧ (∀ pg : Int,
      (extract_outline_from_pdf doc).filter (fun e => decide (e.page = pg))
        = (heuristicLoop (detect_heading_levels (collectSpans doc)) (collectSpans doc)
            []).filter (fun e => decide (e.page = pg)))
  ∧ (extract_outline_from_pdf doc).Perm
      (heuristicLoop (detect_heading_levels (collectSpans doc)) (collectSpans doc) [])
  ∧ ∀ f : ℚ → ℚ, extract_outline_from_pdf (docUpdateY f doc) = extract_outline_from_pdf doc := by
  have hbranch : extract_outline_from_pdf doc
      = sortLE pageLE (heuristicLoop (detect_heading_levels (collectSpans doc))
          (collectSpans doc) []) := by
    simp only [extract_outline_from_pdf]
    rw [if_neg (by simp [h])]
  refine ⟨?_, ?_, ?_, fun f => outline_updateY f doc⟩
  · rw [hbranch]
    refine (pairwise_sortLE pageLE pageLE_total pageLE_trans _).imp ?_
    intro a b hab
    simpa [pageLE] using hab
  · intro pg
    rw [hbranch]
    refine filter_sortLE pageLE _ ?_ _
    intro x y hx hy
    simp only [decide_eq_true_eq] at hx hy
    simp [pageLE, hx, hy]
  · rw [hbranch]
    exact perm_sortLE _ _

/-- Witness for C6 at the concrete two-run document. -/
theorem outline_order_correct_witness :
    exampleDocNK.toc = []
  ∧ (extract_outline_from_pdf exampleDocNK).Pairwise (fun a b => a.page ≤ b.page) :=
  ⟨rfl, (outline_order_correct exampleDocNK rfl).1⟩

/-- Witness for C3 at the concrete two-run document. -/
theorem dedup_trimmed_key_witness :
    exampleDocNK.toc = []
  ∧ extract_outline_from_pdf exampleDocNK
      = sortLE pageLE
          ((dedupFirst keyOf (headingRuns exampleDocNK)).filterMap
            (emitEntry (detect_heading_levels (collectSpans exampleDocNK)))) :=
  ⟨rfl, (dedup_trimmed_key exampleDocNK rfl).1⟩

/-! ## Claim C9: the empty-document sentinel -/

theorem lineAccum_blank : ∀ (spans : List Span), (∀ sp ∈ spans, pyStrip sp.text = "") →
    ∀ acc : String × ℚ, spans.foldl lineStep acc = acc := by
  intro spans
  induction spans with
  | nil => intro _ acc; rfl
  | cons s rest ih =>
    intro hb acc
    have hstep : lineStep acc s = acc := by
      simp [lineStep, hb s (List.mem_cons_self _ _)]
    rw [List.foldl_cons, hstep]
    exact ih (fun sp hsp => hb sp (List.mem_cons_of_mem _ hsp)) acc

theorem blank_of_spansOfPage_nil (n : Int) (p : Page) (h : spansOfPage n p = []) :
    ∀ b ∈ p.blocks, b.type = 0 → ∀ l ∈ b.lines, ∀ s ∈ l.spans, pyStrip s.text = "" := by
  intro b hb htype l hl s hs
  rw [spansOfPage] at h
  have hb' := (List.flatMap_eq_nil_iff.mp h) b hb
  rw [if_neg (by simp [htype])] at hb'
  have hl' := (List.flatMap_eq_nil_iff.mp hb') l hl
  have hs' := (List.filterMap_eq_nil_iff.mp hl') s hs
  by_contra hne
  simp [spanRecord, hne] at hs'

theorem titleCandidates_nil_of_blank (p : Page)
    (h : ∀ b ∈ p.blocks, b.type = 0 → ∀ l ∈ b.lines, ∀ s ∈ l.spans, pyStrip s.text = "") :
    titleCandidates p = [] := by
  rw [titleCandidates]
  refine List.flatMap_eq_nil_iff.mpr ?_
  intro b hb
  by_cases htype : b.type ≠ 0
  · rw [if_pos htype]
  · rw [if_neg htype]
    refine List.filterMap_eq_nil_iff.mpr ?_
    intro l hl
    have htype' : b.type = 0 := by omega
    have hacc : lineAccum l.spans = ("", 0) :=
      lineAccum_blank l.spans (fun s hs => h b hb htype' l hl s hs) ("", 0)
    have hps : pyStrip "" = "" := rfl
    simp [hacc, hps]

/-- C9 as stated is refuted: a document with zero pages (hence zero runs)
and no metadata title but a non-empty explicit TOC gets the sentinel title
and a NON-empty outline taken from the tree. -/
theorem empty_doc_toc_counterexample :
    exampleDocToc.metadata_title = none
  ∧ collectSpans exampleDocToc = []
  ∧ exampleDocToc.pages = []
  ∧ extract_title_from_pdf exampleDocToc = "Untitled Document"
  ∧ (extract_outline_from_pdf exampleDocToc).length = 1
  ∧ extract_outline_from_pdf exampleDocToc ≠ [] := by
  have hlen : (extract_outline_from_pdf exampleDocToc).length = 1 := by decide
  exact ⟨rfl, rfl, rfl, rfl, hlen, fun hcon => by simp [hcon] at hlen⟩

/-- C9 amended: for a document with an EMPTY explicit tree, zero collected
runs (in particular zero pages) and no usable metadata title, the title is
the sentinel and the outline is empty; no error is involved. -/
theorem empty_doc_sentinel (doc : Doc)
    (htoc : doc.toc = [])
    (hruns : collectSpans doc = [])
    (hmeta : ∀ t, doc.metadata_title = some t → pyStrip t = "") :
    extract_title_from_pdf doc = "Untitled Document"
  ∧ extract_outline_from_pdf doc = [] := by
  constructor
  · have hfall : titleFromFirstPage doc = "Untitled Document" := by
      cases hp : doc.pages with
      | nil => simp [titleFromFirstPage, hp]
      | cons p rest =>
        have hsp : spansOfPage 1 p = [] := by
          have h0 := hruns
          rw [collectSpans, hp, collectSpansAux] at h0
          exact (List.append_eq_nil.mp h0).1
        have hcand : titleCandidates p = [] :=
          titleCandidates_nil_of_blank p (blank_of_spansOfPage_nil 1 p hsp)
        simp [titleFromFirstPage, hp, hcand, sortLE, firstSubstantial]
    cases hm : doc.metadata_title with
    | none => simp [extract_title_from_pdf, hm, hfall]
    | some t =>
      have ht := hmeta t hm
      simp [extract_title_from_pdf, hm, ht, hfall]
  · simp only [extract_outline_from_pdf]
    rw [if_neg (by simp [htoc]), hruns]
    rfl

/-- Witness for C9 at a whitespace-only metadata title and no pages. -/
theorem empty_doc_sentinel_witness :
    collectSpans ⟨some "   ", [], []⟩ = []
  ∧ extract_title_from_pdf ⟨some "   ", [], []⟩ = "Untitled Document"
  ∧ extract_outline_from_pdf ⟨some "   ", [], []⟩ = [] := by
  refine ⟨rfl, ?_, ?_⟩
  · exact (empty_doc_sentinel ⟨some "   ", [], []⟩ rfl rfl
      (fun t ht => by simp only [Option.some.injEq] at ht; rw [← ht]; decide)).1
  · exact (empty_doc_sentinel ⟨some "   ", [], []⟩ rfl rfl
      (fun t ht => by simp only [Option.some.injEq] at ht; rw [← ht]; decide)).2

/-! ## Claim C5: title selection -/

theorem candLE_total : ∀ a b : Candidate, candLE a b = false → candLE b a = true := by
  intro a b h
  simp only [candLE, Bool.or_eq_false_iff, Bool.and_eq_false_iff,
    decide_eq_false_iff_not] at h
  rcases h with ⟨h1, h2⟩
  simp only [candLE, Bool.or_eq_true, Bool.and_eq_true, decide_eq_true_eq]
  rcases lt_trichotomy b.y_pos a.y_pos with h3 | h3 | h3
  · exact Or.inl h3
  · rcases h2 with h2 | h2
    · exact absurd h3.symm h2
    · exact Or.inr ⟨h3, le_of_not_le h2⟩
  · exact absurd h3 h1

theorem candLE_trans : ∀ a b c : Candidate,
    candLE a b = true → candLE b c = true → candLE a c = true := by
  intro a b c h1 h2
  simp only [candLE, Bool.or_eq_true, Bool.and_eq_true, decide_eq_true_eq] at h1 h2 ⊢
  rcases h1 with h1 | ⟨h1e, h1f⟩ <;> rcases h2 with h2 | ⟨h2e, h2f⟩
  · exact Or.inl (lt_trans h1 h2)
  · exact Or.inl (lt_of_lt_of_eq h1 h2e)
  · exact Or.inl (lt_of_eq_of_lt h1e h2)
  · exact Or.inr ⟨h1e.trans h2e, le_trans h2f h1f⟩

theorem firstSubstantial_eq_find (l : List Candidate) :
    firstSubstantial l
      = (l.find? (fun c => decide (10 ≤ c.text.length))).map Candidate.text := by
  induction l with
  | nil => rfl
  | cons c rest ih =>
    by_cases hc : 10 ≤ c.text.length
    · simp [firstSubstantial, hc]
    · simp [firstSubstantial, hc, ih]

/-- C5: a metadata title that trims non-empty is returned trimmed for every
page list (no page content is inspected); otherwise the first-page line
candidates of trimmed length above 3 are sorted by vertical position
ascending and font size descending, and the result is the first candidate
of length at least 10, else the first candidate, else the sentinel. -/
theorem title_selection_correct (doc : Doc) :
    (∀ t, doc.metadata_title = some t → pyStrip t ≠ "" →
        ∀ ps : List Page, extract_title_from_pdf ⟨some t, doc.toc, ps⟩ = pyStrip t)
  ∧ ((∀ t, doc.metadata_title = some t → pyStrip t = "") →
      (doc.pages = [] → extract_title_from_pdf doc = "Untitled Document")
      ∧ ∀ p rest, doc.pages = p :: rest →
          ((∀ c, (sortLE candLE (titleCandidates p)).find?
                (fun c => decide (10 ≤ c.text.length)) = some c →
              extract_title_from_pdf doc = c.text)
          ∧ ((sortLE candLE (titleCandidates p)).find?
                (fun c => decide (10 ≤ c.text.length)) = none →
              ∀ c0 cs, sortLE candLE (titleCandidates p) = c0 :: cs →
                extract_title_from_pdf doc = c0.text)
          ∧ (sortLE candLE (titleCandidates p) = [] →
              extract_title_from_pdf doc = "Untitled Document")
          ∧ (sortLE candLE (titleCandidates p)).Pairwise
              (fun a b => a.y_pos < b.y_pos ∨ (a.y_pos = b.y_pos ∧ b.font_size ≤ a.font_size))
          ∧ (sortLE candLE (titleCandidates p)).Perm (titleCandidates p))) := by
  constructor
  · intro t _ htrim ps
    have ht : t ≠ "" := fun hcon => htrim (by rw [hcon]; rfl)
    simp only [extract_title_from_pdf]
    rw [if_pos ⟨ht, htrim⟩]
  · intro hmeta
    have hfall : extract_title_from_pdf doc = titleFromFirstPage doc := by
      cases hm : doc.metadata_title with
      | none => simp [extract_title_from_pdf, hm]
      | some t =>
        have ht := hmeta t hm
        simp [extract_title_from_pdf, hm, ht]
    constructor
    · intro hp
      simp [hfall, titleFromFirstPage, hp]
    · intro p rest hp
      have hbody : extract_title_from_pdf doc
          = (match firstSubstantial (sortLE candLE (titleCandidates p)) with
             | some t => t
             | none => match sortLE candLE (titleCandidates p) with
               | c :: _ => c.text
               | [] => "Untitled Document") := by
        rw [hfall]
        simp [titleFromFirstPage, hp]
      refine ⟨?_, ?_, ?_, ?_, perm_sortLE _ _⟩
      · intro c hc
        rw [hbody, firstSubstantial_eq_find, hc]
        rfl
      · intro hnone c0 cs hcs
        rw [hbody, firstSubstantial_eq_find, hnone, hcs]
        rfl
      · intro hnil
        rw [hbody, firstSubstantial_eq_find, hnil]
        rfl
      · refine (pairwise_sortLE candLE candLE_total candLE_trans _).imp ?_
        intro a b hab
        simpa [candLE, Bool.or_eq_true, Bool.and_eq_true, decide_eq_true_eq] using hab

/-- Witness for C5 at the spec's own metadata example. -/
theorem title_selection_correct_witness :
    extract_title_from_pdf ⟨some "  My Report  ", [], []⟩ = pyStrip "  My Report  " :=
  (title_selection_correct ⟨some "  My Report  ", [], []⟩).1 "  My Report  " rfl (by decide) []

end PdfExtract
